import Mathlib

/-!
# The dependency index of `ship` (src/ship.go)

A shallow embedding of the package index server: the global map `d.dex`
(`map[string][]string`) becomes an explicit state that every operation takes and
returns, a run-time panic (a slice index out of range) becomes `none`, and the
loops are unrolled over the indices they visit.

Go strings are byte sequences; the two separators the program splits on (`,` and
`|`) are ASCII, so splitting a well-formed UTF-8 text on them byte by byte and
character by character gives the same fields.  Strings are modelled as `String`.
-/

namespace Ship

/-- The state of `d.dex`: a finite map from package names to dependency lists.  The
order of `entries` is the order in which a `range` loop visits the map. -/
abbrev Dex := AList (fun _ : String => List String)

/-- An entry of the map: a key together with its stored slice. -/
abbrev Entry := Sigma (fun _ : String => List String)

/-- The map made by `initIndex`: `make(map[string][]string)`. -/
def initIndex : Dex := ∅

namespace strings

/-- Fields of a character sequence cut at every occurrence of `sep`. -/
def splitChars (sep : Char) : List Char → List (List Char)
  | [] => [[]]
  | c :: cs =>
    if c = sep then [] :: splitChars sep cs
    else
      match splitChars sep cs with
      | [] => [[c]]
      | w :: ws => (c :: w) :: ws

/-- Go `strings.Split(s, sep)` for a separator of one character: the substrings
between the separators, one more than there are separators. -/
def Split (s : String) (sep : Char) : List String :=
  (splitChars sep s.data).map String.mk

end strings

/-- Loop of `dependenciesSatisfied` over the indices `i` it visits: `none` when
`dependencies[i]` is out of range, `some false` at the first dependency that is not
a key of the map, `some true` when the loop runs to its end. -/
def dependenciesSatisfiedLoop (dex : Dex) (dependencies : List String) :
    List Nat → Option Bool
  | [] => some true
  | i :: rest =>
    match dependencies.get? i with
    | none => none
    | some dep =>
      if (dex.lookup dep).isSome = false then some false
      else dependenciesSatisfiedLoop dex dependencies rest

/-- Source `dependenciesSatisfied`: `for i := 0; i < len(dependencies); i++`. -/
def dependenciesSatisfied (dex : Dex) (dependencies : List String) : Option Bool :=
  dependenciesSatisfiedLoop dex dependencies (List.range dependencies.length)

/-- Source `index`: the response and the map after the call; `none` is a panic. -/
def index (dex : Dex) (pkg : String) (dependencies : String) : Option (String × Dex) :=
  if dependencies ≠ "" then
    let dep_parsed := strings.Split dependencies ','
    match dependenciesSatisfied dex dep_parsed with
    | none => none
    | some true => some ("OK", dex.insert pkg dep_parsed)
    | some false => some ("FAIL", dex)
  else
    some ("OK", dex.insert pkg [])

/-- Source `query`: the response and the (untouched) map. -/
def query (dex : Dex) (pkg : String) : Option (String × Dex) :=
  if (dex.lookup pkg).isSome = false then some ("FAIL", dex)
  else some ("OK", dex)

/-- Inner loop of `remove` over the indices of one stored slice: `none` when
`value[i]` is out of range, `some true` when some `value[i] == pkg` (the function
returns "FAIL"), `some false` when the loop runs to its end. -/
def removeInner (pkg : String) (value : List String) : List Nat → Option Bool
  | [] => some false
  | i :: rest =>
    match value.get? i with
    | none => none
    | some v => if v = pkg then some true else removeInner pkg value rest

/-- Outer loop of `remove`, `for _, value := range d.dex`, over the entries in the
order the map yields them. -/
def removeOuter (pkg : String) : List Entry → Option Bool
  | [] => some false
  | e :: rest =>
    match removeInner pkg e.2 (List.range e.2.length) with
    | none => none
    | some true => some true
    | some false => removeOuter pkg rest

/-- Source `remove`: the response and the map after the call; `none` is a panic. -/
def remove (dex : Dex) (pkg : String) : Option (String × Dex) :=
  if (dex.lookup pkg).isSome = true then
    match removeOuter pkg dex.entries with
    | none => none
    | some true => some ("FAIL", dex)
    | some false => some ("OK", dex.erase pkg)
  else
    some ("OK", dex)

/-- One operation on the index, with the arguments the handler passes. -/
inductive Op where
  | INDEX (pkg dependencies : String)
  | QUERY (pkg : String)
  | REMOVE (pkg : String)

/-- The call the handler makes for an operation. -/
def step (dex : Dex) : Op → Option (String × Dex)
  | Op.INDEX pkg dependencies => index dex pkg dependencies
  | Op.QUERY pkg => query dex pkg
  | Op.REMOVE pkg => remove dex pkg

/-- A sequence of operations run one after the other: the responses in order and
the final map; `none` if some call panics. -/
def run (dex : Dex) : List Op → Option (List String × Dex)
  | [] => some ([], dex)
  | op :: ops =>
    match step dex op with
    | none => none
    | some (r, dex1) =>
      match run dex1 ops with
      | none => none
      | some (rs, dex2) => some (r :: rs, dex2)

/-- A map that some finite sequence of operations produces from the empty index. -/
def Reachable (dex : Dex) : Prop :=
  ∃ ops : List Op, (run initIndex ops).map Prod.snd = some dex

/-- Some stored entry under a key other than `pkg` has `pkg` in its list. -/
def dependedOnByOther (dex : Dex) (pkg : String) : Bool :=
  dex.entries.any (fun e => decide (e.1 ≠ pkg) && decide (pkg ∈ e.2))

/-- The index after INDEX a and INDEX b, both without dependencies. -/
def dexAB : Dex := (initIndex.insert "a" []).insert "b" []

/-- The index after INDEX a and then INDEX b with dependency a. -/
def dexBA : Dex := (initIndex.insert "a" []).insert "b" ["a"]

/-- The index after INDEX a and then INDEX a again with dependency a. -/
def dexSelf : Dex := (initIndex.insert "a" []).insert "a" ["a"]

/-- The map of `dexBA` with its two entries in the other order. -/
def dexBASwapped : Dex := (initIndex.insert "b" ["a"]).insert "a" []

/-- Every name in a stored dependency list is a key of the map. -/
def NoDangling (dex : Dex) : Prop :=
  ∀ (k : String) (deps : List String) (n : String),
    dex.lookup k = some deps → n ∈ deps → n ∈ dex

namespace strings

/-- Go `strings.TrimSuffix(s, suffix)`: `s` without the trailing `suffix` when it ends
with it, `s` itself otherwise. -/
def TrimSuffix (s suffix : String) : String :=
  if suffix.data.isSuffixOf s.data then
    String.mk (s.data.take (s.data.length - suffix.data.length))
  else s

end strings

/-- The package name an operation is called with. -/
def Op.pkg : Op → String
  | Op.INDEX pkg _ => pkg
  | Op.QUERY pkg => pkg
  | Op.REMOVE pkg => pkg

/-- What one pass of the loop of `parseData` does that the rest of the program can
see, in program order: `d.Lock()`, `d.Unlock()`, a call of `index`, `query` or
`remove`, and `conn.Write`. -/
inductive Event where
  | Lock
  | Unlock
  | Call (op : Op)
  | Write (bytes : String)

/-- The strings written to the connection, in order. -/
def written : List Event → List String
  | [] => []
  | Event.Write bytes :: rest => bytes :: written rest
  | _ :: rest => written rest

/-- The calls of `index`, `query` and `remove`, in order. -/
def called : List Event → List Op
  | [] => []
  | Event.Call op :: rest => op :: called rest
  | _ :: rest => called rest

/-- The `switch command` of `parseData` in ship.go: the call made, `result` and the
map after it; no call and "ERROR" in the default case. -/
def switchCommand (dex : Dex) (command pkg dependencies : String) :
    Option (List Event × String × Dex) :=
  if command = "INDEX" then
    match index dex pkg dependencies with
    | none => none
    | some (result, dex1) => some ([Event.Call (Op.INDEX pkg dependencies)], result, dex1)
  else if command = "QUERY" then
    match query dex pkg with
    | none => none
    | some (result, dex1) => some ([Event.Call (Op.QUERY pkg)], result, dex1)
  else if command = "REMOVE" then
    match remove dex pkg with
    | none => none
    | some (result, dex1) => some ([Event.Call (Op.REMOVE pkg)], result, dex1)
  else
    some ([], "ERROR", dex)

/-- The loop body of `parseData` in ship.go from `strings.Split(message, "|")` to
`conn.Write`, for a message whose newline is already trimmed: the events in order and
the map after; `none` is a panic. -/
def parseLine (dex : Dex) (message : String) : Option (List Event × Dex) :=
  let data := strings.Split message '|'
  if data.length < 3 then
    some ([Event.Write ("ERROR" ++ "\n")], dex)
  else
    match data.get? 0, data.get? 1, data.get? 2 with
    | some command, some pkg, some dependencies =>
      match switchCommand dex command pkg dependencies with
      | none => none
      | some (calls, result, dex1) =>
        some ([Event.Lock] ++ calls ++ [Event.Unlock, Event.Write (result ++ "\n")], dex1)
    | _, _, _ => none

/-- One pass of the loop of `parseData` in ship.go for a `message` that `ReadString`
returned without error (the bytes up to and including the first newline). -/
def parseData (dex : Dex) (message : String) : Option (List Event × Dex) :=
  parseLine dex (strings.TrimSuffix message "\n")

/-! The same functions as they stand in ship_w_mutex.go. -/

namespace WMutex

/-- Loop of `dependenciesSatisfied` in ship_w_mutex.go over the indices it visits. -/
def dependenciesSatisfiedLoop (dex : Dex) (dependencies : List String) :
    List Nat → Option Bool
  | [] => some true
  | i :: rest =>
    match dependencies.get? i with
    | none => none
    | some dep =>
      if (dex.lookup dep).isSome = false then some false
      else dependenciesSatisfiedLoop dex dependencies rest

/-- Source `dependenciesSatisfied` of ship_w_mutex.go. -/
def dependenciesSatisfied (dex : Dex) (dependencies : List String) : Option Bool :=
  dependenciesSatisfiedLoop dex dependencies (List.range dependencies.length)

/-- Source `index` of ship_w_mutex.go. -/
def index (dex : Dex) (pkg : String) (dependencies : String) : Option (String × Dex) :=
  if dependencies ≠ "" then
    let dep_parsed := strings.Split dependencies ','
    match dependenciesSatisfied dex dep_parsed with
    | none => none
    | some true => some ("OK", dex.insert pkg dep_parsed)
    | some false => some ("FAIL", dex)
  else
    some ("OK", dex.insert pkg [])

/-- Source `query` of ship_w_mutex.go. -/
def query (dex : Dex) (pkg : String) : Option (String × Dex) :=
  if (dex.lookup pkg).isSome = false then some ("FAIL", dex)
  else some ("OK", dex)

/-- Inner loop of `remove` in ship_w_mutex.go. -/
def removeInner (pkg : String) (value : List String) : List Nat → Option Bool
  | [] => some false
  | i :: rest =>
    match value.get? i with
    | none => none
    | some v => if v = pkg then some true else removeInner pkg value rest

/-- Outer loop of `remove` in ship_w_mutex.go. -/
def removeOuter (pkg : String) : List Entry → Option Bool
  | [] => some false
  | e :: rest =>
    match removeInner pkg e.2 (List.range e.2.length) with
    | none => none
    | some true => some true
    | some false => removeOuter pkg rest

/-- Source `remove` of ship_w_mutex.go. -/
def remove (dex : Dex) (pkg : String) : Option (String × Dex) :=
  if (dex.lookup pkg).isSome = true then
    match removeOuter pkg dex.entries with
    | none => none
    | some true => some ("FAIL", dex)
    | some false => some ("OK", dex.erase pkg)
  else
    some ("OK", dex)

/-- The `switch command` of `parseData` in ship_w_mutex.go. -/
def switchCommand (dex : Dex) (command pkg dependencies : String) :
    Option (List Event × String × Dex) :=
  if command = "INDEX" then
    match index dex pkg dependencies with
    | none => none
    | some (result, dex1) => some ([Event.Call (Op.INDEX pkg dependencies)], result, dex1)
  else if command = "QUERY" then
    match query dex pkg with
    | none => none
    | some (result, dex1) => some ([Event.Call (Op.QUERY pkg)], result, dex1)
  else if command = "REMOVE" then
    match remove dex pkg with
    | none => none
    | some (result, dex1) => some ([Event.Call (Op.REMOVE pkg)], result, dex1)
  else
    some ([], "ERROR", dex)

/-- The loop body of `parseData` in ship_w_mutex.go after the trim: no `d.Lock()` and
no `d.Unlock()` around the switch. -/
def parseLine (dex : Dex) (message : String) : Option (List Event × Dex) :=
  let data := strings.Split message '|'
  if data.length < 3 then
    some ([Event.Write ("ERROR" ++ "\n")], dex)
  else
    match data.get? 0, data.get? 1, data.get? 2 with
    | some command, some pkg, some dependencies =>
      match switchCommand dex command pkg dependencies with
      | none => none
      | some (calls, result, dex1) =>
        some (calls ++ [Event.Write (result ++ "\n")], dex1)
    | _, _, _ => none

/-- One pass of the loop of `parseData` in ship_w_mutex.go. -/
def parseData (dex : Dex) (message : String) : Option (List Event × Dex) :=
  parseLine dex (strings.TrimSuffix message "\n")

end WMutex

/-! ## The loops -/

theorem dependenciesSatisfiedLoop_range (dex : Dex) (dependencies : List String) :
    ∀ (n s : Nat), s + n = dependencies.length →
      dependenciesSatisfiedLoop dex dependencies (List.range' s n) =
        some ((dependencies.drop s).all (fun dep => (dex.lookup dep).isSome)) := by
  intro n
  induction n with
  | zero =>
    intro s hs
    have : dependencies.drop s = [] := List.drop_eq_nil_of_le (by omega)
    simp [dependenciesSatisfiedLoop, this]
  | succ n ih =>
    intro s hs
    have hlt : s < dependencies.length := by omega
    have hdrop : dependencies.drop s = dependencies[s] :: dependencies.drop (s + 1) :=
      List.drop_eq_getElem_cons hlt
    have hget : dependencies.get? s = some dependencies[s] := by
      simp [List.getElem?_eq_getElem hlt]
    rw [List.range'_succ, dependenciesSatisfiedLoop, hget, hdrop]
    simp only [List.all_cons]
    rw [ih (s + 1) (by omega)]
    cases h : (dex.lookup dependencies[s]).isSome <;> simp

theorem dependenciesSatisfied_eq (dex : Dex) (dependencies : List String) :
    dependenciesSatisfied dex dependencies =
      some (dependencies.all (fun dep => (dex.lookup dep).isSome)) := by
  unfold dependenciesSatisfied
  rw [List.range_eq_range']
  simpa using dependenciesSatisfiedLoop_range dex dependencies dependencies.length 0 (by simp)

theorem removeInner_range (pkg : String) (value : List String) :
    ∀ (n s : Nat), s + n = value.length →
      removeInner pkg value (List.range' s n) = some (decide (pkg ∈ value.drop s)) := by
  intro n
  induction n with
  | zero =>
    intro s hs
    have : value.drop s = [] := List.drop_eq_nil_of_le (by omega)
    simp [removeInner, this]
  | succ n ih =>
    intro s hs
    have hlt : s < value.length := by omega
    have hdrop : value.drop s = value[s] :: value.drop (s + 1) :=
      List.drop_eq_getElem_cons hlt
    have hget : value.get? s = some value[s] := by
      simp [List.getElem?_eq_getElem hlt]
    rw [List.range'_succ, removeInner, hget, hdrop]
    simp only []
    by_cases h : value[s] = pkg
    · simp [h]
    · rw [if_neg h, ih (s + 1) (by omega)]
      have h2 : ¬ pkg = value[s] := fun e => h e.symm
      simp only [List.mem_cons, h2, false_or]

theorem removeInner_eq (pkg : String) (value : List String) :
    removeInner pkg value (List.range value.length) = some (decide (pkg ∈ value)) := by
  rw [List.range_eq_range']
  simpa using removeInner_range pkg value value.length 0 (by simp)

theorem removeOuter_eq (pkg : String) (es : List Entry) :
    removeOuter pkg es = some (es.any (fun e => decide (pkg ∈ e.2))) := by
  induction es with
  | nil => simp [removeOuter]
  | cons e rest ih =>
    rw [removeOuter, removeInner_eq]
    by_cases h : pkg ∈ e.2
    · simp [h]
    · simp [h, ih]

/-! ## What each operation computes -/

theorem index_eq (dex : Dex) (pkg dependencies : String) :
    index dex pkg dependencies =
      if dependencies = "" then some ("OK", dex.insert pkg [])
      else if ∀ n ∈ strings.Split dependencies ',', n ∈ dex then
        some ("OK", dex.insert pkg (strings.Split dependencies ','))
      else some ("FAIL", dex) := by
  unfold index
  by_cases h : dependencies = ""
  · simp [h]
  · simp only [ne_eq, h, not_false_eq_true, if_true, if_false, dependenciesSatisfied_eq]
    by_cases hall : ∀ n ∈ strings.Split dependencies ',', n ∈ dex
    · have : (strings.Split dependencies ',').all (fun dep => (dex.lookup dep).isSome) = true := by
        rw [List.all_eq_true]
        intro n hn
        exact AList.lookup_isSome.mpr (hall n hn)
      rw [this, if_pos hall]
    · have : (strings.Split dependencies ',').all (fun dep => (dex.lookup dep).isSome) = false := by
        rw [Bool.eq_false_iff, ne_eq, List.all_eq_true]
        intro hc
        exact hall (fun n hn => AList.lookup_isSome.mp (hc n hn))
      rw [this, if_neg hall]

theorem query_eq (dex : Dex) (pkg : String) :
    query dex pkg = some (if pkg ∈ dex then "OK" else "FAIL", dex) := by
  unfold query
  by_cases h : pkg ∈ dex
  · have : (dex.lookup pkg).isSome = true := AList.lookup_isSome.mpr h
    simp [this, h]
  · have : (dex.lookup pkg).isSome = false := by
      rw [Bool.eq_false_iff]
      exact fun hc => h (AList.lookup_isSome.mp hc)
    simp [this, h]

theorem remove_eq (dex : Dex) (pkg : String) :
    remove dex pkg =
      if pkg ∈ dex then
        if ∃ e ∈ dex.entries, pkg ∈ e.2 then some ("FAIL", dex)
        else some ("OK", dex.erase pkg)
      else some ("OK", dex) := by
  unfold remove
  by_cases h : pkg ∈ dex
  · have hs : (dex.lookup pkg).isSome = true := AList.lookup_isSome.mpr h
    simp only [hs, if_true, h, removeOuter_eq]
    by_cases hex : ∃ e ∈ dex.entries, pkg ∈ e.2
    · have : dex.entries.any (fun e => decide (pkg ∈ e.2)) = true := by
        rw [List.any_eq_true]
        obtain ⟨e, he, hp⟩ := hex
        exact ⟨e, he, by simpa using hp⟩
      rw [this, if_pos hex]
    · have : dex.entries.any (fun e => decide (pkg ∈ e.2)) = false := by
        rw [Bool.eq_false_iff, ne_eq, List.any_eq_true]
        rintro ⟨e, he, hp⟩
        exact hex ⟨e, he, by simpa using hp⟩
      rw [this, if_neg hex]
  · have hs : ¬ (dex.lookup pkg).isSome = true := fun hc => h (AList.lookup_isSome.mp hc)
    simp [hs, h]

/-- An entry of the list of entries is a binding of the map. -/
theorem listed_iff (dex : Dex) (pkg : String) :
    (∃ e ∈ dex.entries, pkg ∈ e.2) ↔
      ∃ k deps, dex.lookup k = some deps ∧ pkg ∈ deps := by
  constructor
  · rintro ⟨⟨k, deps⟩, he, hp⟩
    exact ⟨k, deps, AList.mem_lookup_iff.mpr he, hp⟩
  · rintro ⟨k, deps, hl, hp⟩
    exact ⟨⟨k, deps⟩, AList.mem_lookup_iff.mp hl, hp⟩

/-- A sequence without the separator is one field. -/
theorem splitChars_of_not_mem (sep : Char) (cs : List Char) (h : sep ∉ cs) :
    strings.splitChars sep cs = [cs] := by
  induction cs with
  | nil => rfl
  | cons c rest ih =>
    have hc : ¬ c = sep := fun e => h (by simp [e])
    have hr : sep ∉ rest := fun e => h (List.mem_cons_of_mem _ e)
    simp [strings.splitChars, hc, ih hr]

/-- A name without a comma, as a dependency field, is that one name. -/
theorem Split_of_no_comma (p : String) (h : ',' ∉ p.data) :
    strings.Split p ',' = [p] := by
  simp [strings.Split, splitChars_of_not_mem ',' p.data h]

/-! ## Sequences of operations -/

theorem noDangling_init : NoDangling initIndex := by
  intro k deps n h _
  simp [initIndex] at h

theorem noDangling_insert (dex : Dex) (pkg : String) (deps : List String)
    (hinv : NoDangling dex) (hdeps : ∀ n ∈ deps, n ∈ dex) :
    NoDangling (dex.insert pkg deps) := by
  intro k ds n hk hn
  by_cases hkp : k = pkg
  · subst hkp
    rw [AList.lookup_insert] at hk
    simp only [Option.some.injEq] at hk
    subst hk
    exact (AList.mem_insert dex).mpr (Or.inr (hdeps n hn))
  · rw [AList.lookup_insert_ne hkp] at hk
    exact (AList.mem_insert dex).mpr (Or.inr (hinv k ds n hk hn))

theorem noDangling_erase (dex : Dex) (pkg : String) (hinv : NoDangling dex)
    (hfree : ¬ ∃ e ∈ dex.entries, pkg ∈ e.2) : NoDangling (dex.erase pkg) := by
  intro k ds n hk hn
  by_cases hkp : k = pkg
  · subst hkp
    simp [AList.lookup_erase] at hk
  · rw [AList.lookup_erase_ne hkp] at hk
    rw [AList.mem_erase]
    refine ⟨?_, hinv k ds n hk hn⟩
    intro hnp
    subst hnp
    exact hfree ((listed_iff dex n).mpr ⟨k, ds, hk, hn⟩)

theorem step_noDangling (dex : Dex) (op : Op) (hinv : NoDangling dex) :
    ∃ r dex1, step dex op = some (r, dex1) ∧ NoDangling dex1 := by
  cases op with
  | INDEX pkg deps =>
    simp only [step, index_eq]
    by_cases h0 : deps = ""
    · rw [if_pos h0]
      exact ⟨_, _, rfl, noDangling_insert dex pkg [] hinv (by simp)⟩
    · by_cases hall : ∀ n ∈ strings.Split deps ',', n ∈ dex
      · rw [if_neg h0, if_pos hall]
        exact ⟨_, _, rfl, noDangling_insert dex pkg _ hinv hall⟩
      · rw [if_neg h0, if_neg hall]
        exact ⟨_, _, rfl, hinv⟩
  | QUERY pkg =>
    simp only [step, query_eq]
    exact ⟨_, _, rfl, hinv⟩
  | REMOVE pkg =>
    simp only [step, remove_eq]
    by_cases hmem : pkg ∈ dex
    · by_cases hex : ∃ e ∈ dex.entries, pkg ∈ e.2
      · rw [if_pos hmem, if_pos hex]
        exact ⟨_, _, rfl, hinv⟩
      · rw [if_pos hmem, if_neg hex]
        exact ⟨_, _, rfl, noDangling_erase dex pkg hinv hex⟩
    · rw [if_neg hmem]
      exact ⟨_, _, rfl, hinv⟩

theorem run_noDangling (ops : List Op) :
    ∀ dex : Dex, NoDangling dex →
      ∃ rs dex1, run dex ops = some (rs, dex1) ∧ NoDangling dex1 := by
  induction ops with
  | nil =>
    intro dex hinv
    exact ⟨[], dex, rfl, hinv⟩
  | cons op rest ih =>
    intro dex hinv
    obtain ⟨r, dex1, hstep, hinv1⟩ := step_noDangling dex op hinv
    obtain ⟨rs, dex2, hrun, hinv2⟩ := ih dex1 hinv1
    exact ⟨r :: rs, dex2, by simp [run, hstep, hrun], hinv2⟩

theorem reachable_noDangling (dex : Dex) (h : Reachable dex) : NoDangling dex := by
  obtain ⟨ops, hops⟩ := h
  obtain ⟨rs, dex1, hrun, hinv⟩ := run_noDangling ops initIndex noDangling_init
  rw [hrun] at hops
  simp only [Option.map_some', Option.some.injEq] at hops
  rw [← hops]
  exact hinv

/-- The map that a successful `remove` returns. -/
theorem remove_ok_eq (dex : Dex) (pkg : String) (dex1 : Dex)
    (h : remove dex pkg = some ("OK", dex1)) : dex1 = dex.erase pkg := by
  rw [remove_eq] at h
  by_cases hmem : pkg ∈ dex
  · by_cases hex : ∃ e ∈ dex.entries, pkg ∈ e.2
    · rw [if_pos hmem, if_pos hex] at h
      simp only [Option.some.injEq, Prod.mk.injEq] at h
      exact absurd h.1 (by decide)
    · rw [if_pos hmem, if_neg hex] at h
      simp only [Option.some.injEq, Prod.mk.injEq] at h
      exact h.2.symm
  · rw [if_neg hmem] at h
    simp only [Option.some.injEq, Prod.mk.injEq] at h
    rw [← h.2]
    apply AList.ext
    exact (List.kerase_of_not_mem_keys hmem).symm

/-- In a map without dangling dependencies, `remove` is refused exactly when some
stored list, the one of `pkg` included, has `pkg` in it. -/
theorem remove_fail_of_listed (dex : Dex) (pkg : String) (hinv : NoDangling dex)
    (hex : ∃ e ∈ dex.entries, pkg ∈ e.2) : remove dex pkg = some ("FAIL", dex) := by
  obtain ⟨k, ds, hk, hn⟩ := (listed_iff dex pkg).mp hex
  have hmem : pkg ∈ dex := hinv k ds pkg hk hn
  rw [remove_eq, if_pos hmem, if_pos hex]

theorem remove_ok_of_not_listed (dex : Dex) (pkg : String)
    (hex : ¬ ∃ e ∈ dex.entries, pkg ∈ e.2) : ∃ dex1, remove dex pkg = some ("OK", dex1) := by
  rw [remove_eq]
  by_cases hmem : pkg ∈ dex
  · rw [if_pos hmem, if_neg hex]
    exact ⟨_, rfl⟩
  · rw [if_neg hmem]
    exact ⟨_, rfl⟩

/-! ## INDEX -/

/-- C1 (counterexample): after INDEX a and INDEX b, the name "a,b" is not a key, yet
index("a,b", "a,b") returns "OK": the dependency field is split into a and b, which
are both keys. -/
theorem index_self_dependency_counterexample :
    (run initIndex [Op.INDEX "a" "", Op.INDEX "b" ""]).map Prod.snd = some dexAB ∧
      "a,b" ∉ dexAB ∧
      index dexAB "a,b" "a,b" = some ("OK", dexAB.insert "a,b" ["a", "b"]) :=
  ⟨rfl, by decide, rfl⟩

/-- C1 (amended): index(pkg, deps) returns "OK" if and only if deps is the empty
string or every name obtained by splitting deps on ',' is a key of the map before the
call, and returns "FAIL" otherwise; in particular index(p, p) returns "FAIL" and
changes nothing whenever p is non-empty, contains no ',' and is not already a key. -/
theorem index_ok_iff (dex : Dex) (pkg deps : String) :
    ((index dex pkg deps).map Prod.fst = some "OK" ↔
        (deps = "" ∨ ∀ n ∈ strings.Split deps ',', n ∈ dex)) ∧
      ((index dex pkg deps).map Prod.fst = some "FAIL" ↔
        ¬ (deps = "" ∨ ∀ n ∈ strings.Split deps ',', n ∈ dex)) ∧
      (pkg ≠ "" → ',' ∉ pkg.data → pkg ∉ dex →
        index dex pkg pkg = some ("FAIL", dex)) := by
  refine ⟨?_, ?_, ?_⟩
  · rw [index_eq]
    by_cases h : deps = ""
    · simp [h]
    · by_cases hall : ∀ n ∈ strings.Split deps ',', n ∈ dex
      · rw [if_neg h, if_pos hall]
        simp only [Option.map_some', true_iff]
        exact Or.inr hall
      · rw [if_neg h, if_neg hall]
        simp only [Option.map_some', Option.some.injEq]
        constructor
        · intro hc
          exact absurd hc (by decide)
        · rintro (h1 | h2)
          · exact absurd h1 h
          · exact absurd h2 hall
  · rw [index_eq]
    by_cases h : deps = ""
    · rw [if_pos h]
      simp only [Option.map_some', Option.some.injEq]
      constructor
      · intro hc
        exact absurd hc (by decide)
      · intro hc
        exact absurd (Or.inl h) hc
    · by_cases hall : ∀ n ∈ strings.Split deps ',', n ∈ dex
      · rw [if_neg h, if_pos hall]
        simp only [Option.map_some', Option.some.injEq]
        constructor
        · intro hc
          exact absurd hc (by decide)
        · intro hc
          exact absurd (Or.inr hall) hc
      · rw [if_neg h, if_neg hall]
        simp only [Option.map_some', true_iff]
        rintro (h1 | h2)
        · exact h h1
        · exact hall h2
  · intro hne hcomma hmem
    rw [index_eq, if_neg hne, Split_of_no_comma pkg hcomma]
    have : ¬ ∀ n ∈ [pkg], n ∈ dex := fun hc => hmem (hc pkg (List.mem_singleton.mpr rfl))
    rw [if_neg this]

/-- C1 (witness): the name p in the empty index. -/
theorem index_ok_iff_witness :
    "p" ≠ "" ∧ ',' ∉ "p".data ∧ "p" ∉ initIndex ∧
      index initIndex "p" "p" = some ("FAIL", initIndex) :=
  ⟨by decide, by decide, by decide,
    (index_ok_iff initIndex "p" "p").2.2 (by decide) (by decide) (by decide)⟩

/-- C2: if index(pkg, deps) returns "FAIL", the map after the call is the map before
it; from the empty index, INDEX b with dependency a returns "FAIL" and the QUERY b
that follows returns "FAIL". -/
theorem index_fail_unchanged (dex : Dex) (pkg deps : String) :
    (∀ dex1 : Dex, index dex pkg deps = some ("FAIL", dex1) → dex1 = dex) ∧
      run initIndex [Op.INDEX "b" "a", Op.QUERY "b"]
        = some (["FAIL", "FAIL"], initIndex) := by
  refine ⟨?_, rfl⟩
  intro dex1 h
  rw [index_eq] at h
  by_cases h0 : deps = ""
  · rw [if_pos h0] at h
    simp only [Option.some.injEq, Prod.mk.injEq] at h
    exact absurd h.1 (by decide)
  · by_cases hall : ∀ n ∈ strings.Split deps ',', n ∈ dex
    · rw [if_neg h0, if_pos hall] at h
      simp only [Option.some.injEq, Prod.mk.injEq] at h
      exact absurd h.1 (by decide)
    · rw [if_neg h0, if_neg hall] at h
      simp only [Option.some.injEq, Prod.mk.injEq] at h
      exact h.2.symm

/-- C2 (witness): INDEX b with dependency a on the empty index. -/
theorem index_fail_unchanged_witness :
    index initIndex "b" "a" = some ("FAIL", initIndex) ∧
      ∀ dex1 : Dex, index initIndex "b" "a" = some ("FAIL", dex1) → dex1 = initIndex :=
  ⟨rfl, (index_fail_unchanged initIndex "b" "a").1⟩

/-- C3: if index(pkg, deps) returns "OK", then afterwards pkg is a key and query(pkg)
returns "OK", the list stored for pkg is deps split on ',' in order (the empty list
when deps is the empty string) whatever was stored before, and the entry of every
other key is as it was. -/
theorem index_ok_effect (dex : Dex) (pkg deps : String) (dex1 : Dex)
    (h : index dex pkg deps = some ("OK", dex1)) :
    pkg ∈ dex1 ∧ query dex1 pkg = some ("OK", dex1) ∧
      dex1.lookup pkg = some (if deps = "" then [] else strings.Split deps ',') ∧
      ∀ k : String, k ≠ pkg → dex1.lookup k = dex.lookup k := by
  have hins : dex1 = dex.insert pkg (if deps = "" then [] else strings.Split deps ',') := by
    rw [index_eq] at h
    by_cases h0 : deps = ""
    · rw [if_pos h0] at h
      simp only [Option.some.injEq, Prod.mk.injEq] at h
      rw [if_pos h0]
      exact h.2.symm
    · by_cases hall : ∀ n ∈ strings.Split deps ',', n ∈ dex
      · rw [if_neg h0, if_pos hall] at h
        simp only [Option.some.injEq, Prod.mk.injEq] at h
        rw [if_neg h0]
        exact h.2.symm
      · rw [if_neg h0, if_neg hall] at h
        simp only [Option.some.injEq, Prod.mk.injEq] at h
        exact absurd h.1 (by decide)
  have hmem : pkg ∈ dex1 := by
    rw [hins]
    exact (AList.mem_insert dex).mpr (Or.inl rfl)
  refine ⟨hmem, ?_, ?_, ?_⟩
  · rw [query_eq, if_pos hmem]
  · rw [hins, AList.lookup_insert]
  · intro k hk
    rw [hins, AList.lookup_insert_ne hk]

/-- C3 (witness): re-indexing a with dependency b, where a was stored with no
dependency. -/
theorem index_ok_effect_witness :
    index dexAB "a" "b" = some ("OK", dexAB.insert "a" ["b"]) ∧
      (dexAB.insert "a" ["b"]).lookup "a"
        = some (if "b" = "" then [] else strings.Split "b" ',') :=
  ⟨rfl, (index_ok_effect dexAB "a" "b" (dexAB.insert "a" ["b"]) rfl).2.2.1⟩

/-! ## The invariant -/

/-- C4: every finite sequence of INDEX, QUERY and REMOVE operations run from the
empty index ends in a map, and in that map every name that occurs in a stored
dependency list is itself a key. -/
theorem no_dangling_dependency (ops : List Op) :
    ∃ rs dex, run initIndex ops = some (rs, dex) ∧
      ∀ (k : String) (deps : List String) (n : String),
        dex.lookup k = some deps → n ∈ deps → n ∈ dex :=
  run_noDangling ops initIndex noDangling_init

/-- C4 (witness): after INDEX a, INDEX b with dependency a and a refused REMOVE a,
the dependency a of b is a key. -/
theorem no_dangling_dependency_witness :
    run initIndex [Op.INDEX "a" "", Op.INDEX "b" "a", Op.REMOVE "a"]
        = some (["OK", "OK", "FAIL"], dexBA) ∧
      dexBA.lookup "b" = some ["a"] ∧ "a" ∈ ["a"] ∧ "a" ∈ dexBA := by
  obtain ⟨rs, dex, hrun, hinv⟩ :=
    no_dangling_dependency [Op.INDEX "a" "", Op.INDEX "b" "a", Op.REMOVE "a"]
  have hval : run initIndex [Op.INDEX "a" "", Op.INDEX "b" "a", Op.REMOVE "a"]
      = some (["OK", "OK", "FAIL"], dexBA) := rfl
  rw [hval] at hrun
  simp only [Option.some.injEq, Prod.mk.injEq] at hrun
  have hdex : dex = dexBA := hrun.2.symm
  subst hdex
  exact ⟨hval, rfl, by decide, hinv "b" ["a"] "a" rfl (by decide)⟩

/-! ## REMOVE -/

/-- C5 (the code at the failing input): after INDEX a and INDEX a with dependency a,
no entry under another key lists a, and REMOVE a answers "FAIL" and keeps the
entry. -/
theorem remove_self_dependency_refused :
    run initIndex [Op.INDEX "a" "", Op.INDEX "a" "a", Op.REMOVE "a"]
        = some (["OK", "OK", "FAIL"], dexSelf) ∧
      dependedOnByOther dexSelf "a" = false ∧
      remove dexSelf "a" = some ("FAIL", dexSelf) :=
  ⟨rfl, by decide, rfl⟩

/-- C6: in a map reachable from the empty index where b is stored with a in its
list, a and b distinct, remove(a) returns "FAIL" and leaves the map as it is; once
remove(b) has succeeded and no entry other than the one of b listed a, remove(a)
returns "OK".  The scenario INDEX a, INDEX b on a, REMOVE a, REMOVE b, REMOVE a
answers OK, OK, FAIL, OK, OK and ends in the empty index. -/
theorem remove_blocked_by_dependent (dex : Dex) (a b : String) (deps : List String)
    (hreach : Reachable dex) (hab : a ≠ b) (hb : dex.lookup b = some deps)
    (ha : a ∈ deps) :
    remove dex a = some ("FAIL", dex) ∧
      (∀ dex1 : Dex, remove dex b = some ("OK", dex1) →
        (∀ e ∈ dex.entries, e.1 ≠ b → a ∉ e.2) →
        ∃ dex2, remove dex1 a = some ("OK", dex2)) ∧
      run initIndex [Op.INDEX "a" "", Op.INDEX "b" "a", Op.REMOVE "a", Op.REMOVE "b",
          Op.REMOVE "a"]
        = some (["OK", "OK", "FAIL", "OK", "OK"], initIndex) := by
  refine ⟨?_, ?_, rfl⟩
  · exact remove_fail_of_listed dex a (reachable_noDangling dex hreach)
      ((listed_iff dex a).mpr ⟨b, deps, hb, ha⟩)
  · intro dex1 hrem hother
    have hd : dex1 = dex.erase b := remove_ok_eq dex b dex1 hrem
    apply remove_ok_of_not_listed
    rw [listed_iff]
    rintro ⟨k, ds, hk, hn⟩
    rw [hd] at hk
    by_cases hkb : k = b
    · subst hkb
      simp [AList.lookup_erase] at hk
    · rw [AList.lookup_erase_ne hkb] at hk
      exact hother ⟨k, ds⟩ (AList.mem_lookup_iff.mp hk) hkb hn

/-- C6 (witness): the map after INDEX a and INDEX b with dependency a. -/
theorem remove_blocked_by_dependent_witness :
    Reachable dexBA ∧ "a" ≠ "b" ∧ dexBA.lookup "b" = some ["a"] ∧ "a" ∈ ["a"] ∧
      remove dexBA "a" = some ("FAIL", dexBA) ∧
      remove dexBA "b" = some ("OK", dexBA.erase "b") ∧
      (∀ e ∈ dexBA.entries, e.1 ≠ "b" → "a" ∉ e.2) ∧
      ∃ dex2, remove (dexBA.erase "b") "a" = some ("OK", dex2) :=
  have hreach : Reachable dexBA := ⟨[Op.INDEX "a" "", Op.INDEX "b" "a"], rfl⟩
  have h := remove_blocked_by_dependent dexBA "a" "b" ["a"] hreach (by decide) rfl
    (by decide)
  ⟨hreach, by decide, rfl, by decide, h.1, rfl, by decide,
    h.2.1 (dexBA.erase "b") rfl (by decide)⟩

/-- C7: if remove(pkg) returns "OK", then afterwards pkg is not a key and the entry
of every other key is as it was before the call. -/
theorem remove_ok_effect (dex : Dex) (pkg : String) (dex1 : Dex)
    (h : remove dex pkg = some ("OK", dex1)) :
    pkg ∉ dex1 ∧ ∀ k : String, k ≠ pkg → dex1.lookup k = dex.lookup k := by
  have hd : dex1 = dex.erase pkg := remove_ok_eq dex pkg dex1 h
  subst hd
  refine ⟨?_, ?_⟩
  · rw [AList.mem_erase]
    exact fun hc => hc.1 rfl
  · intro k hk
    exact AList.lookup_erase_ne hk

/-- C7 (witness): REMOVE a after INDEX a and INDEX b. -/
theorem remove_ok_effect_witness :
    remove dexAB "a" = some ("OK", dexAB.erase "a") ∧ "a" ∉ dexAB.erase "a" ∧
      (dexAB.erase "a").lookup "b" = dexAB.lookup "b" :=
  have h := remove_ok_effect dexAB "a" (dexAB.erase "a") rfl
  ⟨rfl, h.1, h.2 "b" (by decide)⟩

/-- C8 (counterexample): after INDEX a and INDEX b with dependency a, REMOVE a is
refused and the QUERY a that follows at once answers "OK". -/
theorem remove_then_query_counterexample :
    run initIndex [Op.INDEX "a" "", Op.INDEX "b" "a"] = some (["OK", "OK"], dexBA) ∧
      run dexBA [Op.REMOVE "a", Op.QUERY "a"] = some (["FAIL", "OK"], dexBA) :=
  ⟨rfl, rfl⟩

/-- C8 (amended): remove(pkg) returns "OK" or "FAIL"; when it returns "OK", the
query(pkg) run at once on the resulting map returns "FAIL"; when it returns "FAIL",
pkg is still a key and that query returns "OK". -/
theorem remove_then_query (dex : Dex) (pkg : String) :
    ∃ r dex1, remove dex pkg = some (r, dex1) ∧
      ((r = "OK" ∧ query dex1 pkg = some ("FAIL", dex1)) ∨
        (r = "FAIL" ∧ query dex1 pkg = some ("OK", dex1))) := by
  by_cases hmem : pkg ∈ dex
  · by_cases hex : ∃ e ∈ dex.entries, pkg ∈ e.2
    · refine ⟨"FAIL", dex, ?_, Or.inr ⟨rfl, ?_⟩⟩
      · rw [remove_eq, if_pos hmem, if_pos hex]
      · rw [query_eq, if_pos hmem]
    · refine ⟨"OK", dex.erase pkg, ?_, Or.inl ⟨rfl, ?_⟩⟩
      · rw [remove_eq, if_pos hmem, if_neg hex]
      · have : pkg ∉ dex.erase pkg := by
          rw [AList.mem_erase]
          exact fun hc => hc.1 rfl
        rw [query_eq, if_neg this]
  · refine ⟨"OK", dex, ?_, Or.inl ⟨rfl, ?_⟩⟩
    · rw [remove_eq, if_neg hmem]
    · rw [query_eq, if_neg hmem]

/-- C10: remove(pkg) for a pkg that is not a key returns "OK" and leaves the map as
it is. -/
theorem remove_absent_noop (dex : Dex) (pkg : String) (h : pkg ∉ dex) :
    remove dex pkg = some ("OK", dex) := by
  rw [remove_eq, if_neg h]

/-- C10 (witness): REMOVE nonexistent after INDEX a and INDEX b. -/
theorem remove_absent_noop_witness :
    "nonexistent" ∉ dexAB ∧ remove dexAB "nonexistent" = some ("OK", dexAB) :=
  ⟨by decide, remove_absent_noop dexAB "nonexistent" (by decide)⟩

/-! ## QUERY -/

/-- C9: query(pkg) returns "OK" if pkg is a key of the map and "FAIL" otherwise, and
the map after the call is the map before it. -/
theorem query_key_iff (dex : Dex) (pkg : String) :
    (pkg ∈ dex → query dex pkg = some ("OK", dex)) ∧
      (pkg ∉ dex → query dex pkg = some ("FAIL", dex)) := by
  refine ⟨?_, ?_⟩
  · intro h
    rw [query_eq, if_pos h]
  · intro h
    rw [query_eq, if_neg h]

/-- C9 (witness): QUERY a and QUERY nonexistent after INDEX a and INDEX b. -/
theorem query_key_iff_witness :
    "a" ∈ dexAB ∧ query dexAB "a" = some ("OK", dexAB) ∧
      "nonexistent" ∉ dexAB ∧ query dexAB "nonexistent" = some ("FAIL", dexAB) :=
  ⟨by decide, (query_key_iff dexAB "a").1 (by decide), by decide,
    (query_key_iff dexAB "nonexistent").2 (by decide)⟩

/-! ## Splitting and trimming -/

theorem splitChars_ne_nil (sep : Char) (cs : List Char) :
    strings.splitChars sep cs ≠ [] := by
  cases cs with
  | nil => simp [strings.splitChars]
  | cons c rest =>
    by_cases hc : c = sep
    · simp [strings.splitChars, hc]
    · cases hr : strings.splitChars sep rest <;> simp [strings.splitChars, hc, hr]

/-- Cutting at a separator: the fields before it followed by the fields after it. -/
theorem splitChars_append_sep (sep : Char) (a b : List Char) :
    strings.splitChars sep (a ++ sep :: b) =
      strings.splitChars sep a ++ strings.splitChars sep b := by
  induction a with
  | nil => simp [strings.splitChars]
  | cons c rest ih =>
    by_cases hc : c = sep
    · simp [strings.splitChars, hc, ih]
    · cases hr : strings.splitChars sep rest with
      | nil => exact absurd hr (splitChars_ne_nil sep rest)
      | cons w ws =>
        simp [strings.splitChars, hc, ih, hr]

/-- No field contains the separator, and every character of a field is a character of
the text. -/
theorem splitChars_field (sep : Char) (cs : List Char) :
    ∀ w ∈ strings.splitChars sep cs, sep ∉ w ∧ ∀ c ∈ w, c ∈ cs := by
  induction cs with
  | nil =>
    intro w hw
    simp [strings.splitChars] at hw
    subst hw
    simp
  | cons c rest ih =>
    intro w hw
    by_cases hc : c = sep
    · simp only [strings.splitChars, hc, if_true, List.mem_cons] at hw
      rcases hw with hw | hw
      · subst hw
        simp
      · obtain ⟨h1, h2⟩ := ih w hw
        exact ⟨h1, fun x hx => List.mem_cons_of_mem _ (h2 x hx)⟩
    · cases hr : strings.splitChars sep rest with
      | nil => exact absurd hr (splitChars_ne_nil sep rest)
      | cons v vs =>
        simp only [strings.splitChars, hc, if_false, hr, List.mem_cons] at hw
        rcases hw with hw | hw
        · subst hw
          obtain ⟨h1, h2⟩ := ih v (by simp [hr])
          refine ⟨?_, ?_⟩
          · intro hmem
            rcases List.mem_cons.mp hmem with h | h
            · exact hc h.symm
            · exact h1 h
          · intro x hx
            rcases List.mem_cons.mp hx with h | h
            · simp [h]
            · exact List.mem_cons_of_mem _ (h2 x h)
        · obtain ⟨h1, h2⟩ := ih w (by simp [hr, hw])
          exact ⟨h1, fun x hx => List.mem_cons_of_mem _ (h2 x hx)⟩

theorem Split_ne_nil (s : String) (sep : Char) : strings.Split s sep ≠ [] := by
  simp [strings.Split, splitChars_ne_nil]

/-- The trim undoes the newline that ends a message. -/
theorem TrimSuffix_newline (line : String) :
    strings.TrimSuffix (line ++ "\n") "\n" = line := by
  have hd : (line ++ "\n").data = line.data ++ ['\n'] := rfl
  have hn : ("\n" : String).data = ['\n'] := rfl
  have hsuf : (['\n'] : List Char).isSuffixOf (line.data ++ ['\n']) = true := by
    rw [List.isSuffixOf_iff_suffix]
    exact List.suffix_append _ _
  unfold strings.TrimSuffix
  rw [hd, hn, if_pos hsuf]
  simp

theorem parseData_newline (dex : Dex) (line : String) :
    parseData dex (line ++ "\n") = parseLine dex line := by
  unfold parseData
  rw [TrimSuffix_newline]

/-! ## The operations return -/

theorem index_total (dex : Dex) (pkg deps : String) :
    ∃ r dex1, index dex pkg deps = some (r, dex1) ∧ (r = "OK" ∨ r = "FAIL") := by
  rw [index_eq]
  by_cases h0 : deps = ""
  · rw [if_pos h0]
    exact ⟨_, _, rfl, Or.inl rfl⟩
  · by_cases hall : ∀ n ∈ strings.Split deps ',', n ∈ dex
    · rw [if_neg h0, if_pos hall]
      exact ⟨_, _, rfl, Or.inl rfl⟩
    · rw [if_neg h0, if_neg hall]
      exact ⟨_, _, rfl, Or.inr rfl⟩

theorem query_total (dex : Dex) (pkg : String) :
    ∃ r dex1, query dex pkg = some (r, dex1) ∧ (r = "OK" ∨ r = "FAIL") := by
  rw [query_eq]
  by_cases h : pkg ∈ dex
  · rw [if_pos h]
    exact ⟨_, _, rfl, Or.inl rfl⟩
  · rw [if_neg h]
    exact ⟨_, _, rfl, Or.inr rfl⟩

theorem remove_total (dex : Dex) (pkg : String) :
    ∃ r dex1, remove dex pkg = some (r, dex1) ∧ (r = "OK" ∨ r = "FAIL") := by
  rw [remove_eq]
  by_cases hmem : pkg ∈ dex
  · by_cases hex : ∃ e ∈ dex.entries, pkg ∈ e.2
    · rw [if_pos hmem, if_pos hex]
      exact ⟨_, _, rfl, Or.inr rfl⟩
    · rw [if_pos hmem, if_neg hex]
      exact ⟨_, _, rfl, Or.inl rfl⟩
  · rw [if_neg hmem]
    exact ⟨_, _, rfl, Or.inl rfl⟩

/-! ## The handler -/

theorem switchCommand_INDEX (dex : Dex) (pkg deps r : String) (dex1 : Dex)
    (h : index dex pkg deps = some (r, dex1)) :
    switchCommand dex "INDEX" pkg deps
      = some ([Event.Call (Op.INDEX pkg deps)], r, dex1) := by
  simp [switchCommand, h]

theorem switchCommand_QUERY (dex : Dex) (pkg deps r : String) (dex1 : Dex)
    (h : query dex pkg = some (r, dex1)) :
    switchCommand dex "QUERY" pkg deps = some ([Event.Call (Op.QUERY pkg)], r, dex1) := by
  have h1 : ¬ ("QUERY" : String) = "INDEX" := by decide
  simp [switchCommand, h1, h]

theorem switchCommand_REMOVE (dex : Dex) (pkg deps r : String) (dex1 : Dex)
    (h : remove dex pkg = some (r, dex1)) :
    switchCommand dex "REMOVE" pkg deps = some ([Event.Call (Op.REMOVE pkg)], r, dex1) := by
  have h1 : ¬ ("REMOVE" : String) = "INDEX" := by decide
  have h2 : ¬ ("REMOVE" : String) = "QUERY" := by decide
  simp [switchCommand, h1, h2, h]

theorem switchCommand_default (dex : Dex) (command pkg deps : String)
    (h1 : command ≠ "INDEX") (h2 : command ≠ "QUERY") (h3 : command ≠ "REMOVE") :
    switchCommand dex command pkg deps = some ([], "ERROR", dex) := by
  simp [switchCommand, h1, h2, h3]

theorem parseLine_short (dex : Dex) (line : String)
    (h : (strings.Split line '|').length < 3) :
    parseLine dex line = some ([Event.Write "ERROR\n"], dex) := by
  unfold parseLine
  simp only [h, if_true]
  rfl

theorem parseLine_fields (dex : Dex) (line command pkg deps : String) (rest : List String)
    (h : strings.Split line '|' = command :: pkg :: deps :: rest) :
    parseLine dex line =
      match switchCommand dex command pkg deps with
      | none => none
      | some (calls, result, dex1) =>
        some ([Event.Lock] ++ calls ++ [Event.Unlock, Event.Write (result ++ "\n")], dex1) := by
  unfold parseLine
  simp [h]

/-- A list that is not shorter than three has three leading elements. -/
theorem three_fields (data : List String) (h : ¬ data.length < 3) :
    ∃ command pkg deps rest, data = command :: pkg :: deps :: rest := by
  match data, h with
  | [], h => exact absurd (by simp) h
  | [_], h => exact absurd (by simp) h
  | [_, _], h => exact absurd (by simp) h
  | a :: b :: c :: rest, _ => exact ⟨a, b, c, rest, rfl⟩

/-- A line with at least three fields: the lock is taken, the switch makes at most one
call, the lock is released and one response is written. -/
theorem parseLine_dispatch (dex : Dex) (line command pkg deps : String)
    (rest : List String) (h : strings.Split line '|' = command :: pkg :: deps :: rest) :
    ∃ calls r dex1,
      parseLine dex line
        = some (Event.Lock :: (calls ++ [Event.Unlock, Event.Write (r ++ "\n")]), dex1) ∧
      ((command = "INDEX" ∧ calls = [Event.Call (Op.INDEX pkg deps)] ∧
          index dex pkg deps = some (r, dex1) ∧ (r = "OK" ∨ r = "FAIL")) ∨
        (command = "QUERY" ∧ calls = [Event.Call (Op.QUERY pkg)] ∧
          query dex pkg = some (r, dex1) ∧ (r = "OK" ∨ r = "FAIL")) ∨
        (command = "REMOVE" ∧ calls = [Event.Call (Op.REMOVE pkg)] ∧
          remove dex pkg = some (r, dex1) ∧ (r = "OK" ∨ r = "FAIL")) ∨
        (command ≠ "INDEX" ∧ command ≠ "QUERY" ∧ command ≠ "REMOVE" ∧ calls = [] ∧
          r = "ERROR" ∧ dex1 = dex)) := by
  rw [parseLine_fields dex line command pkg deps rest h]
  by_cases hI : command = "INDEX"
  · obtain ⟨r, dex1, hr, hok⟩ := index_total dex pkg deps
    refine ⟨[Event.Call (Op.INDEX pkg deps)], r, dex1, ?_, Or.inl ⟨hI, rfl, hr, hok⟩⟩
    rw [hI, switchCommand_INDEX dex pkg deps r dex1 hr]
    rfl
  · by_cases hQ : command = "QUERY"
    · obtain ⟨r, dex1, hr, hok⟩ := query_total dex pkg
      refine ⟨[Event.Call (Op.QUERY pkg)], r, dex1, ?_, Or.inr (Or.inl ⟨hQ, rfl, hr, hok⟩)⟩
      rw [hQ, switchCommand_QUERY dex pkg deps r dex1 hr]
      rfl
    · by_cases hR : command = "REMOVE"
      · obtain ⟨r, dex1, hr, hok⟩ := remove_total dex pkg
        refine ⟨[Event.Call (Op.REMOVE pkg)], r, dex1, ?_,
          Or.inr (Or.inr (Or.inl ⟨hR, rfl, hr, hok⟩))⟩
        rw [hR, switchCommand_REMOVE dex pkg deps r dex1 hr]
        rfl
      · refine ⟨[], "ERROR", dex, ?_, Or.inr (Or.inr (Or.inr ⟨hI, hQ, hR, rfl, rfl, rfl⟩))⟩
        rw [switchCommand_default dex command pkg deps hI hQ hR]
        rfl

/-- C11: a line that splits on '|' into fewer than three fields, or whose first field
is none of "INDEX", "QUERY", "REMOVE", is answered with the one response "ERROR", no
operation is called and the map is left as it is. -/
theorem handler_error (dex : Dex) (line : String)
    (h : (strings.Split line '|').length < 3 ∨
      ((strings.Split line '|').get? 0 ≠ some "INDEX" ∧
        (strings.Split line '|').get? 0 ≠ some "QUERY" ∧
        (strings.Split line '|').get? 0 ≠ some "REMOVE")) :
    ∃ events, parseData dex (line ++ "\n") = some (events, dex) ∧
      written events = ["ERROR\n"] ∧ called events = [] := by
  rw [parseData_newline]
  by_cases hlen : (strings.Split line '|').length < 3
  · exact ⟨_, parseLine_short dex line hlen, rfl, rfl⟩
  · obtain ⟨command, pkg, deps, rest, hsplit⟩ := three_fields _ hlen
    rcases h with h | ⟨hI, hQ, hR⟩
    · exact absurd h hlen
    · rw [hsplit] at hI hQ hR
      simp only [List.get?_cons_zero, ne_eq, Option.some.injEq] at hI hQ hR
      rw [parseLine_fields dex line command pkg deps rest hsplit,
        switchCommand_default dex command pkg deps hI hQ hR]
      exact ⟨_, rfl, rfl, rfl⟩

/-- C11 (witness): the lines "INDEX|a" (two fields) and "DELETE|a|" (unknown
command). -/
theorem handler_error_witness :
    (strings.Split "INDEX|a" '|').length < 3 ∧
      (∃ events, parseData dexAB ("INDEX|a" ++ "\n") = some (events, dexAB) ∧
        written events = ["ERROR\n"] ∧ called events = []) ∧
      (strings.Split "DELETE|a|" '|').get? 0 = some "DELETE" ∧
      (∃ events, parseData dexAB ("DELETE|a|" ++ "\n") = some (events, dexAB) ∧
        written events = ["ERROR\n"] ∧ called events = []) :=
  ⟨by decide, handler_error dexAB "INDEX|a" (Or.inl (by decide)), by decide,
    handler_error dexAB "DELETE|a|" (Or.inr ⟨by decide, by decide, by decide⟩)⟩

/-- C12 (the code at the failing input): the line "INDEX|a||x" splits into four
fields, and the handler calls index("a", "") and answers "OK". -/
theorem extra_field_dispatched :
    (strings.Split "INDEX|a||x" '|').length = 4 ∧
      parseData initIndex ("INDEX|a||x" ++ "\n")
        = some ([Event.Lock, Event.Call (Op.INDEX "a" ""), Event.Unlock,
            Event.Write "OK\n"], initIndex.insert "a" []) :=
  ⟨by decide, rfl⟩

/-- A field of a split text has no separator in it and only characters of the text. -/
theorem Split_field (s : String) (sep : Char) (f : String)
    (h : f ∈ strings.Split s sep) : sep ∉ f.data ∧ ∀ c ∈ f.data, c ∈ s.data := by
  simp only [strings.Split, List.mem_map] at h
  obtain ⟨w, hw, hf⟩ := h
  subst hf
  exact splitChars_field sep s.data w hw

/-- C13 (counterexample): the line "INDEX||" reaches index with the empty package name,
which is stored as a key. -/
theorem empty_name_counterexample :
    parseData initIndex ("INDEX||" ++ "\n")
        = some ([Event.Lock, Event.Call (Op.INDEX "" ""), Event.Unlock,
            Event.Write "OK\n"], initIndex.insert "" []) ∧
      (Op.INDEX "" "").pkg = "" ∧ "" ∈ initIndex.insert "" [] :=
  ⟨rfl, rfl, by decide⟩

/-- C13 (amended): the package name the handler passes to index, query or remove never
contains '|', and contains no newline when the line has none; names are not checked
otherwise: "INDEX||" calls index("", ""), "QUERY||" calls query(""), and "INDEX|p|a,"
calls index("p", "a,"), whose dependency list is a followed by the empty name. -/
theorem handler_names (dex : Dex) (line : String) :
    (∃ events dex1, parseData dex (line ++ "\n") = some (events, dex1) ∧
        ∀ op ∈ called events,
          '|' ∉ op.pkg.data ∧ ('\n' ∉ line.data → '\n' ∉ op.pkg.data)) ∧
      called [Event.Lock, Event.Call (Op.INDEX "" ""), Event.Unlock, Event.Write "OK\n"]
        = [Op.INDEX "" ""] ∧
      parseData initIndex ("QUERY||" ++ "\n")
        = some ([Event.Lock, Event.Call (Op.QUERY ""), Event.Unlock,
            Event.Write "FAIL\n"], initIndex) ∧
      parseData initIndex ("INDEX|p|a," ++ "\n")
        = some ([Event.Lock, Event.Call (Op.INDEX "p" "a,"), Event.Unlock,
            Event.Write "FAIL\n"], initIndex) ∧
      strings.Split "a," ',' = ["a", ""] := by
  refine ⟨?_, rfl, rfl, rfl, by decide⟩
  rw [parseData_newline]
  by_cases hlen : (strings.Split line '|').length < 3
  · refine ⟨_, _, parseLine_short dex line hlen, ?_⟩
    intro op hop
    simp [called] at hop
  · obtain ⟨command, pkg, deps, rest, hsplit⟩ := three_fields _ hlen
    have hpkg : pkg ∈ strings.Split line '|' := by simp [hsplit]
    obtain ⟨hbar, hsub⟩ := Split_field line '|' pkg hpkg
    have hgood : '|' ∉ pkg.data ∧ ('\n' ∉ line.data → '\n' ∉ pkg.data) :=
      ⟨hbar, fun hnl hc => hnl (hsub _ hc)⟩
    obtain ⟨calls, r, dex1, hparse, hcase⟩ :=
      parseLine_dispatch dex line command pkg deps rest hsplit
    refine ⟨_, _, hparse, ?_⟩
    intro op hop
    rcases hcase with ⟨_, hc, _⟩ | ⟨_, hc, _⟩ | ⟨_, hc, _⟩ | ⟨_, _, _, hc, _⟩
    all_goals
      subst hc
      simp [called] at hop
    all_goals
      subst hop
      exact hgood

/-- C13 (witness): the line "QUERY|a|" has no newline, and its package name a has
neither '|' nor a newline. -/
theorem handler_names_witness :
    '\n' ∉ "QUERY|a|".data ∧
      ∃ events dex1, parseData dexAB ("QUERY|a|" ++ "\n") = some (events, dex1) ∧
        ∀ op ∈ called events,
          '|' ∉ op.pkg.data ∧ ('\n' ∉ "QUERY|a|".data → '\n' ∉ op.pkg.data) :=
  ⟨by decide, (handler_names dexAB "QUERY|a|").1⟩

/-- C14: for every line the handler writes exactly one response, "OK", "FAIL" or
"ERROR" followed by a newline; when the line has at least three fields and the first
is "INDEX", "QUERY" or "REMOVE", the response and the map after are those of
index(field2, field3), query(field2) or remove(field2) on the current map. -/
theorem handler_response (dex : Dex) (line : String) :
    ∃ events dex1 r, parseData dex (line ++ "\n") = some (events, dex1) ∧
      written events = [r ++ "\n"] ∧ (r = "OK" ∨ r = "FAIL" ∨ r = "ERROR") ∧
      ∀ (command pkg deps : String) (rest : List String),
        strings.Split line '|' = command :: pkg :: deps :: rest →
          (command = "INDEX" → index dex pkg deps = some (r, dex1)) ∧
          (command = "QUERY" → query dex pkg = some (r, dex1)) ∧
          (command = "REMOVE" → remove dex pkg = some (r, dex1)) := by
  rw [parseData_newline]
  by_cases hlen : (strings.Split line '|').length < 3
  · refine ⟨_, dex, "ERROR", parseLine_short dex line hlen, rfl, Or.inr (Or.inr rfl), ?_⟩
    intro command pkg deps rest hsplit
    rw [hsplit] at hlen
    simp only [List.length_cons] at hlen
    omega
  · obtain ⟨command, pkg, deps, rest, hsplit⟩ := three_fields _ hlen
    obtain ⟨calls, r, dex1, hparse, hcase⟩ :=
      parseLine_dispatch dex line command pkg deps rest hsplit
    have hw : written (Event.Lock :: (calls ++ [Event.Unlock, Event.Write (r ++ "\n")]))
        = [r ++ "\n"] := by
      rcases hcase with ⟨_, hc, _⟩ | ⟨_, hc, _⟩ | ⟨_, hc, _⟩ | ⟨_, _, _, hc, _⟩
      all_goals
        subst hc
        rfl
    have hr : r = "OK" ∨ r = "FAIL" ∨ r = "ERROR" := by
      rcases hcase with ⟨_, _, _, h⟩ | ⟨_, _, _, h⟩ | ⟨_, _, _, h⟩ | ⟨_, _, _, _, h, _⟩
      · rcases h with h | h
        · exact Or.inl h
        · exact Or.inr (Or.inl h)
      · rcases h with h | h
        · exact Or.inl h
        · exact Or.inr (Or.inl h)
      · rcases h with h | h
        · exact Or.inl h
        · exact Or.inr (Or.inl h)
      · exact Or.inr (Or.inr h)
    refine ⟨_, dex1, r, hparse, hw, hr, ?_⟩
    intro command1 pkg1 deps1 rest1 hsplit1
    rw [hsplit] at hsplit1
    simp only [List.cons.injEq] at hsplit1
    obtain ⟨hc, hp, hd, _⟩ := hsplit1
    subst hc hp hd
    have hQI : ¬ ("QUERY" : String) = "INDEX" := by decide
    have hRI : ¬ ("REMOVE" : String) = "INDEX" := by decide
    have hRQ : ¬ ("REMOVE" : String) = "QUERY" := by decide
    rcases hcase with ⟨hI, _, h, _⟩ | ⟨hQ, _, h, _⟩ | ⟨hR, _, h, _⟩ | ⟨hI, hQ, hR, _⟩
    · refine ⟨fun _ => h, fun hc => ?_, fun hc => ?_⟩
      · exact absurd (hc.symm.trans hI) hQI
      · exact absurd (hc.symm.trans hI) hRI
    · refine ⟨fun hc => ?_, fun _ => h, fun hc => ?_⟩
      · exact absurd (hQ.symm.trans hc) hQI
      · exact absurd (hc.symm.trans hQ) hRQ
    · refine ⟨fun hc => ?_, fun hc => ?_, fun _ => h⟩
      · exact absurd (hR.symm.trans hc) hRI
      · exact absurd (hR.symm.trans hc) hRQ
    · exact ⟨fun hc => absurd hc hI, fun hc => absurd hc hQ, fun hc => absurd hc hR⟩

/-- C14 (witness): the line "INDEX|b|a" on the index that holds a. -/
theorem handler_response_witness :
    strings.Split "INDEX|b|a" '|' = ["INDEX", "b", "a"] ∧
      ∃ events dex1 r,
        parseData (initIndex.insert "a" []) ("INDEX|b|a" ++ "\n") = some (events, dex1) ∧
        written events = [r ++ "\n"] ∧
        index (initIndex.insert "a" []) "b" "a" = some (r, dex1) := by
  obtain ⟨events, dex1, r, hparse, hw, _, hfields⟩ :=
    handler_response (initIndex.insert "a" []) "INDEX|b|a"
  exact ⟨by decide, events, dex1, r, hparse, hw,
    (hfields "INDEX" "b" "a" [] (by decide)).1 rfl⟩

/-- The fields of a line made of a command, '|', a package field, '|' and a third
field: the command, then the fields of the package field, then those of the third. -/
theorem Split_command_line (cmdBar cmd pkg x : String)
    (hcmd : cmdBar.data = cmd.data ++ ['|']) (hno : '|' ∉ cmd.data) :
    strings.Split (cmdBar ++ pkg ++ "|" ++ x) '|'
      = cmd :: (strings.Split pkg '|' ++ strings.Split x '|') := by
  have hbar : ("|" : String).data = ['|'] := rfl
  have hdata : (cmdBar ++ pkg ++ "|" ++ x).data
      = cmd.data ++ '|' :: (pkg.data ++ '|' :: x.data) := by
    simp [String.data_append, hcmd, hbar]
  unfold strings.Split
  rw [hdata, splitChars_append_sep, splitChars_append_sep, splitChars_of_not_mem '|' _ hno]
  simp

/-- The first two fields of such a line do not depend on the third field. -/
theorem command_line_fields (cmdBar cmd pkg : String)
    (hcmd : cmdBar.data = cmd.data ++ ['|']) (hno : '|' ∉ cmd.data) :
    ∃ p0, ∀ x : String, ∃ d rest,
      strings.Split (cmdBar ++ pkg ++ "|" ++ x) '|' = cmd :: p0 :: d :: rest := by
  cases hp : strings.Split pkg '|' with
  | nil => exact absurd hp (Split_ne_nil pkg '|')
  | cons p0 ps =>
    refine ⟨p0, fun x => ?_⟩
    rw [Split_command_line cmdBar cmd pkg x hcmd hno, hp]
    cases hx : strings.Split x '|' with
    | nil => exact absurd hx (Split_ne_nil x '|')
    | cons x0 xs =>
      cases ps with
      | nil => exact ⟨x0, xs, rfl⟩
      | cons q qs => exact ⟨q, qs ++ x0 :: xs, rfl⟩

/-- C15: for every map, package field pkg and third fields x and y, the lines
"QUERY|pkg|x" and "QUERY|pkg|y" have the same outcome (calls, response and map after),
and so have "REMOVE|pkg|x" and "REMOVE|pkg|y". -/
theorem dependency_field_ignored (dex : Dex) (pkg x y : String) :
    (∃ out, parseData dex ("QUERY|" ++ pkg ++ "|" ++ x ++ "\n") = some out ∧
        parseData dex ("QUERY|" ++ pkg ++ "|" ++ y ++ "\n") = some out) ∧
      (∃ out, parseData dex ("REMOVE|" ++ pkg ++ "|" ++ x ++ "\n") = some out ∧
        parseData dex ("REMOVE|" ++ pkg ++ "|" ++ y ++ "\n") = some out) := by
  refine ⟨?_, ?_⟩
  · obtain ⟨p0, hfields⟩ := command_line_fields "QUERY|" "QUERY" pkg rfl (by decide)
    obtain ⟨r, dex1, hq, _⟩ := query_total dex p0
    obtain ⟨dx, rx, hx⟩ := hfields x
    obtain ⟨dy, ry, hy⟩ := hfields y
    refine ⟨([Event.Lock, Event.Call (Op.QUERY p0), Event.Unlock,
      Event.Write (r ++ "\n")], dex1), ?_, ?_⟩
    · rw [parseData_newline, parseLine_fields dex _ "QUERY" p0 dx rx hx,
        switchCommand_QUERY dex p0 dx r dex1 hq]
      rfl
    · rw [parseData_newline, parseLine_fields dex _ "QUERY" p0 dy ry hy,
        switchCommand_QUERY dex p0 dy r dex1 hq]
      rfl
  · obtain ⟨p0, hfields⟩ := command_line_fields "REMOVE|" "REMOVE" pkg rfl (by decide)
    obtain ⟨r, dex1, hq, _⟩ := remove_total dex p0
    obtain ⟨dx, rx, hx⟩ := hfields x
    obtain ⟨dy, ry, hy⟩ := hfields y
    refine ⟨([Event.Lock, Event.Call (Op.REMOVE p0), Event.Unlock,
      Event.Write (r ++ "\n")], dex1), ?_, ?_⟩
    · rw [parseData_newline, parseLine_fields dex _ "REMOVE" p0 dx rx hx,
        switchCommand_REMOVE dex p0 dx r dex1 hq]
      rfl
    · rw [parseData_newline, parseLine_fields dex _ "REMOVE" p0 dy ry hy,
        switchCommand_REMOVE dex p0 dy r dex1 hq]
      rfl

/-- Every line gets through the handler of ship.go. -/
theorem parseLine_total (dex : Dex) (line : String) :
    ∃ out, parseLine dex line = some out := by
  by_cases hlen : (strings.Split line '|').length < 3
  · exact ⟨_, parseLine_short dex line hlen⟩
  · obtain ⟨command, pkg, deps, rest, hsplit⟩ := three_fields _ hlen
    obtain ⟨calls, r, dex1, hparse, _⟩ :=
      parseLine_dispatch dex line command pkg deps rest hsplit
    exact ⟨_, hparse⟩

/-- C16: processing a message never panics, whatever the string: the accesses data[0],
data[1], data[2] and every slice index in dependenciesSatisfied, index and remove are
in range, and index, query and remove return a result for all strings. -/
theorem never_panics (dex : Dex) (message pkg deps : String)
    (dependencies : List String) :
    (∃ out, parseData dex message = some out) ∧
      (∃ b, dependenciesSatisfied dex dependencies = some b) ∧
      (∃ r dex1, index dex pkg deps = some (r, dex1)) ∧
      (∃ r dex1, query dex pkg = some (r, dex1)) ∧
      (∃ r dex1, remove dex pkg = some (r, dex1)) := by
  refine ⟨parseLine_total dex _, ⟨_, dependenciesSatisfied_eq dex dependencies⟩, ?_, ?_, ?_⟩
  · obtain ⟨r, dex1, h, _⟩ := index_total dex pkg deps
    exact ⟨r, dex1, h⟩
  · obtain ⟨r, dex1, h, _⟩ := query_total dex pkg
    exact ⟨r, dex1, h⟩
  · obtain ⟨r, dex1, h, _⟩ := remove_total dex pkg
    exact ⟨r, dex1, h⟩

/-- C17 (the code at the failing input): on the line "INDEX|a|" the handler of
ship_w_mutex.go calls index and writes the response with no Lock and no Unlock, where
the handler of ship.go takes the lock before the call and releases it before the
write. -/
theorem handler_without_lock :
    WMutex.parseData initIndex ("INDEX|a|" ++ "\n")
        = some ([Event.Call (Op.INDEX "a" ""), Event.Write "OK\n"],
            initIndex.insert "a" []) ∧
      parseData initIndex ("INDEX|a|" ++ "\n")
        = some ([Event.Lock, Event.Call (Op.INDEX "a" ""), Event.Unlock,
            Event.Write "OK\n"], initIndex.insert "a" []) :=
  ⟨rfl, rfl⟩

/-! ## Order of the entries, repetition -/

/-- C18: the response of remove(pkg) and the map it leaves do not depend on the order
in which the range loop visits the entries: on two enumerations of the same entries
remove returns the same string and maps with the same entries. -/
theorem remove_order_independent (dex1 dex2 : Dex) (pkg : String)
    (h : dex1.entries.Perm dex2.entries) :
    ∃ r d1 d2, remove dex1 pkg = some (r, d1) ∧ remove dex2 pkg = some (r, d2) ∧
      d1.entries.Perm d2.entries ∧ ∀ k : String, d1.lookup k = d2.lookup k := by
  have hmem : pkg ∈ dex1 ↔ pkg ∈ dex2 := AList.mem_of_perm h
  have hex : (∃ e ∈ dex1.entries, pkg ∈ e.2) ↔ (∃ e ∈ dex2.entries, pkg ∈ e.2) := by
    constructor
    · rintro ⟨e, he, hp⟩
      exact ⟨e, h.mem_iff.mp he, hp⟩
    · rintro ⟨e, he, hp⟩
      exact ⟨e, h.mem_iff.mpr he, hp⟩
  rw [remove_eq, remove_eq]
  by_cases h1 : pkg ∈ dex1
  · by_cases h2 : ∃ e ∈ dex1.entries, pkg ∈ e.2
    · rw [if_pos h1, if_pos h2, if_pos (hmem.mp h1), if_pos (hex.mp h2)]
      exact ⟨_, _, _, rfl, rfl, h, fun k => AList.perm_lookup h⟩
    · rw [if_pos h1, if_neg h2, if_pos (hmem.mp h1), if_neg (fun hc => h2 (hex.mpr hc))]
      exact ⟨_, _, _, rfl, rfl, AList.perm_erase h,
        fun k => AList.perm_lookup (AList.perm_erase h)⟩
  · rw [if_neg h1, if_neg (fun hc => h1 (hmem.mpr hc))]
    exact ⟨_, _, _, rfl, rfl, h, fun k => AList.perm_lookup h⟩

/-- C18 (witness): REMOVE a on the map that holds a and b with dependency a, visited
as b, a and as a, b: refused both times. -/
theorem remove_order_independent_witness :
    dexBA.entries.Perm dexBASwapped.entries ∧
      remove dexBA "a" = some ("FAIL", dexBA) ∧
      remove dexBASwapped "a" = some ("FAIL", dexBASwapped) ∧
      ∃ r d1 d2, remove dexBA "a" = some (r, d1) ∧ remove dexBASwapped "a" = some (r, d2) ∧
        d1.entries.Perm d2.entries ∧ ∀ k : String, d1.lookup k = d2.lookup k :=
  have hperm : dexBA.entries.Perm dexBASwapped.entries := List.Perm.swap _ _ _
  ⟨hperm, rfl, rfl, remove_order_independent dexBA dexBASwapped "a" hperm⟩

/-- C19: index(pkg, deps) run twice in a row returns the same response both times and
leaves the map that one run leaves; so does remove(pkg). -/
theorem index_remove_idempotent (dex : Dex) (pkg deps : String) :
    (∃ r dex1, index dex pkg deps = some (r, dex1) ∧
        index dex1 pkg deps = some (r, dex1)) ∧
      (∃ r dex1, remove dex pkg = some (r, dex1) ∧ remove dex1 pkg = some (r, dex1)) := by
  refine ⟨?_, ?_⟩
  · by_cases h0 : deps = ""
    · refine ⟨"OK", dex.insert pkg [], ?_, ?_⟩
      · rw [index_eq, if_pos h0]
      · rw [index_eq, if_pos h0, AList.insert_insert]
    · by_cases hall : ∀ n ∈ strings.Split deps ',', n ∈ dex
      · refine ⟨"OK", dex.insert pkg (strings.Split deps ','), ?_, ?_⟩
        · rw [index_eq, if_neg h0, if_pos hall]
        · have hall1 : ∀ n ∈ strings.Split deps ',',
              n ∈ dex.insert pkg (strings.Split deps ',') :=
            fun n hn => (AList.mem_insert dex).mpr (Or.inr (hall n hn))
          rw [index_eq, if_neg h0, if_pos hall1, AList.insert_insert]
      · refine ⟨"FAIL", dex, ?_, ?_⟩
        · rw [index_eq, if_neg h0, if_neg hall]
        · rw [index_eq, if_neg h0, if_neg hall]
  · by_cases hmem : pkg ∈ dex
    · by_cases hex : ∃ e ∈ dex.entries, pkg ∈ e.2
      · refine ⟨"FAIL", dex, ?_, ?_⟩
        · rw [remove_eq, if_pos hmem, if_pos hex]
        · rw [remove_eq, if_pos hmem, if_pos hex]
      · have hgone : pkg ∉ dex.erase pkg := by
          rw [AList.mem_erase]
          exact fun hc => hc.1 rfl
        refine ⟨"OK", dex.erase pkg, ?_, ?_⟩
        · rw [remove_eq, if_pos hmem, if_neg hex]
        · rw [remove_eq, if_neg hgone]
    · refine ⟨"OK", dex, ?_, ?_⟩
      · rw [remove_eq, if_neg hmem]
      · rw [remove_eq, if_neg hmem]

/-! ## The two variants -/

theorem wmutex_dependenciesSatisfiedLoop_eq (dex : Dex) (dependencies : List String)
    (is : List Nat) :
    WMutex.dependenciesSatisfiedLoop dex dependencies is
      = dependenciesSatisfiedLoop dex dependencies is := by
  induction is with
  | nil => rfl
  | cons i rest ih =>
    simp only [WMutex.dependenciesSatisfiedLoop, dependenciesSatisfiedLoop, ih]

theorem wmutex_dependenciesSatisfied_eq (dex : Dex) (dependencies : List String) :
    WMutex.dependenciesSatisfied dex dependencies
      = dependenciesSatisfied dex dependencies := by
  simp only [WMutex.dependenciesSatisfied, dependenciesSatisfied,
    wmutex_dependenciesSatisfiedLoop_eq]

theorem wmutex_index_eq (dex : Dex) (pkg deps : String) :
    WMutex.index dex pkg deps = index dex pkg deps := by
  simp only [WMutex.index, index, wmutex_dependenciesSatisfied_eq]

theorem wmutex_query_eq (dex : Dex) (pkg : String) :
    WMutex.query dex pkg = query dex pkg := rfl

theorem wmutex_removeInner_eq (pkg : String) (value : List String) (is : List Nat) :
    WMutex.removeInner pkg value is = removeInner pkg value is := by
  induction is with
  | nil => rfl
  | cons i rest ih => simp only [WMutex.removeInner, removeInner, ih]

theorem wmutex_removeOuter_eq (pkg : String) (es : List Entry) :
    WMutex.removeOuter pkg es = removeOuter pkg es := by
  induction es with
  | nil => rfl
  | cons e rest ih =>
    simp only [WMutex.removeOuter, removeOuter, wmutex_removeInner_eq, ih]

theorem wmutex_remove_eq (dex : Dex) (pkg : String) :
    WMutex.remove dex pkg = remove dex pkg := by
  simp only [WMutex.remove, remove, wmutex_removeOuter_eq]

theorem wmutex_switchCommand_eq (dex : Dex) (command pkg deps : String) :
    WMutex.switchCommand dex command pkg deps = switchCommand dex command pkg deps := by
  simp only [WMutex.switchCommand, switchCommand, wmutex_index_eq, wmutex_query_eq,
    wmutex_remove_eq]

theorem wmutex_parseLine_short (dex : Dex) (line : String)
    (h : (strings.Split line '|').length < 3) :
    WMutex.parseLine dex line = some ([Event.Write "ERROR\n"], dex) := by
  unfold WMutex.parseLine
  simp only [h, if_true]
  rfl

theorem wmutex_parseLine_fields (dex : Dex) (line command pkg deps : String)
    (rest : List String) (h : strings.Split line '|' = command :: pkg :: deps :: rest) :
    WMutex.parseLine dex line =
      match switchCommand dex command pkg deps with
      | none => none
      | some (calls, result, dex1) =>
        some (calls ++ [Event.Write (result ++ "\n")], dex1) := by
  unfold WMutex.parseLine
  simp [h, wmutex_switchCommand_eq]

/-- The two handlers on one line: the same calls, the same response, the same map. -/
theorem parseLine_variants (dex : Dex) (line : String) :
    ∃ events1 events2 dex1, parseLine dex line = some (events1, dex1) ∧
      WMutex.parseLine dex line = some (events2, dex1) ∧
      written events1 = written events2 ∧ called events1 = called events2 := by
  by_cases hlen : (strings.Split line '|').length < 3
  · exact ⟨_, _, _, parseLine_short dex line hlen, wmutex_parseLine_short dex line hlen,
      rfl, rfl⟩
  · obtain ⟨command, pkg, deps, rest, hsplit⟩ := three_fields _ hlen
    obtain ⟨calls, r, dex1, hparse, hcase⟩ :=
      parseLine_dispatch dex line command pkg deps rest hsplit
    have hsw : switchCommand dex command pkg deps = some (calls, r, dex1) := by
      rcases hcase with ⟨hc, hcalls, h, _⟩ | ⟨hc, hcalls, h, _⟩ | ⟨hc, hcalls, h, _⟩ |
        ⟨hI, hQ, hR, hcalls, hr, hd⟩
      · rw [hc, hcalls, switchCommand_INDEX dex pkg deps r dex1 h]
      · rw [hc, hcalls, switchCommand_QUERY dex pkg deps r dex1 h]
      · rw [hc, hcalls, switchCommand_REMOVE dex pkg deps r dex1 h]
      · rw [hcalls, hr, hd, switchCommand_default dex command pkg deps hI hQ hR]
    refine ⟨_, calls ++ [Event.Write (r ++ "\n")], dex1, hparse, ?_, ?_, ?_⟩
    · rw [wmutex_parseLine_fields dex line command pkg deps rest hsplit, hsw]
    · rcases hcase with ⟨_, hc, _⟩ | ⟨_, hc, _⟩ | ⟨_, hc, _⟩ | ⟨_, _, _, hc, _⟩
      all_goals
        subst hc
        rfl
    · rcases hcase with ⟨_, hc, _⟩ | ⟨_, hc, _⟩ | ⟨_, hc, _⟩ | ⟨_, _, _, hc, _⟩
      all_goals
        subst hc
        rfl

/-- C20: run one after the other, the two variants agree: for every map and every
message the pass of parseData in ship.go and the one in ship_w_mutex.go return, write
the same response, make the same call and leave the same map, and their
dependenciesSatisfied, index, query and remove compute the same results. -/
theorem variants_agree (dex : Dex) (message pkg deps : String)
    (dependencies : List String) :
    (∃ events1 events2 dex1, parseData dex message = some (events1, dex1) ∧
        WMutex.parseData dex message = some (events2, dex1) ∧
        written events1 = written events2 ∧ called events1 = called events2) ∧
      WMutex.dependenciesSatisfied dex dependencies
        = dependenciesSatisfied dex dependencies ∧
      WMutex.index dex pkg deps = index dex pkg deps ∧
      WMutex.query dex pkg = query dex pkg ∧
      WMutex.remove dex pkg = remove dex pkg :=
  ⟨parseLine_variants dex _, wmutex_dependenciesSatisfied_eq dex dependencies,
    wmutex_index_eq dex pkg deps, wmutex_query_eq dex pkg, wmutex_remove_eq dex pkg⟩

end Ship
